import Mathlib

set_option linter.unusedSectionVars false

/-!
Shallow embedding of the procgen-art rendering pipeline
(src/procgen-art/src/main.rs) for verification of its specification.

Modelling conventions:
* Rust `f32` values are modelled by the type `F α` below: an explicit `nan`,
  explicit signed infinities, and finite values drawn from a linear ordered
  field `α`.  Finite f32 arithmetic is idealized as exact field arithmetic
  (no rounding error, no overflow of finite products/sums to infinity); the
  operations that create or consume non-finite values (division by zero,
  `ln` at zero and below, `max` with NaN, float→integer casts, `clamp`,
  `fract`, `round`) follow the IEEE/Rust behaviour of the source.
* The pipeline is polymorphic in `α` and in the two transcendental
  functions `sinF`/`lnF` that stand for f32 `sin`/`ln`; theorems instantiate
  `α := ℝ`, `sinF := Real.sin`, `lnF := Real.log` where the actual values
  matter, and arbitrary instantiations where only structure matters.
* Rust `String` rows hold only ASCII characters here (ramp glyphs and the
  formatted overlay text), so byte indices and `char` indices coincide;
  rows are modelled as `List Char`.
* Rust `u64`/`usize` casts from floats saturate; `u64MaxN` is 2^64 - 1
  (the target is 64-bit).
* `StdRng` (the `rand` crate) is an external collaborator: it is modelled
  as a deterministic stream `ℕ → α` of draws plus a cursor, which is the
  interface the renderer relies on (`gen::<f32>()` advances the stream by
  one); `seedRng` models `StdRng::seed_from_u64` applied to an arbitrary
  seed→stream algorithm `family`.
-/

/-- Idealized f32 value: NaN, signed infinities, or a finite value in `α`. -/
inductive F (α : Type) where
  | nan : F α
  | pinf : F α
  | ninf : F α
  | fin (x : α) : F α
deriving DecidableEq

namespace F

variable {α : Type} [LinearOrderedField α]

/-- f32 addition on non-finite values: NaN propagates, `+∞ + -∞ = NaN`. -/
def fadd : F α → F α → F α
  | nan, _ => nan
  | _, nan => nan
  | pinf, ninf => nan
  | ninf, pinf => nan
  | pinf, _ => pinf
  | _, pinf => pinf
  | ninf, _ => ninf
  | _, ninf => ninf
  | fin a, fin b => fin (a + b)

/-- f32 multiplication: NaN propagates, `0 * ±∞ = NaN`, signs multiply. -/
def fmul : F α → F α → F α
  | nan, _ => nan
  | _, nan => nan
  | pinf, pinf => pinf
  | pinf, ninf => ninf
  | ninf, pinf => ninf
  | ninf, ninf => pinf
  | pinf, fin b => if b = 0 then nan else if 0 < b then pinf else ninf
  | fin a, pinf => if a = 0 then nan else if 0 < a then pinf else ninf
  | ninf, fin b => if b = 0 then nan else if 0 < b then ninf else pinf
  | fin a, ninf => if a = 0 then nan else if 0 < a then ninf else pinf
  | fin a, fin b => fin (a * b)

/-- f32 division: NaN propagates, `±∞ / ±∞ = NaN`, `0/0 = NaN`,
`x/0 = ±∞` for finite `x ≠ 0` (positive zero divisor), `x/±∞ = 0`
(the sign of zero is not tracked: it is unobservable in this pipeline). -/
def fdiv : F α → F α → F α
  | nan, _ => nan
  | _, nan => nan
  | pinf, pinf => nan
  | pinf, ninf => nan
  | ninf, pinf => nan
  | ninf, ninf => nan
  | pinf, fin b => if 0 ≤ b then pinf else ninf
  | ninf, fin b => if 0 ≤ b then ninf else pinf
  | fin _, pinf => fin 0
  | fin _, ninf => fin 0
  | fin a, fin b =>
      if b = 0 then (if a = 0 then nan else if 0 < a then pinf else ninf)
      else fin (a / b)

/-- Rust `f32::max`: if one operand is NaN the other is returned. -/
def fmax : F α → F α → F α
  | nan, b => b
  | a, nan => a
  | pinf, _ => pinf
  | _, pinf => pinf
  | ninf, b => b
  | a, ninf => a
  | fin a, fin b => fin (max a b)

/-- f32 `sin` through an abstract finite implementation `sinF`:
`sin` of NaN or of either infinity is NaN. -/
def fsin (sinF : α → α) : F α → F α
  | fin x => fin (sinF x)
  | _ => nan

/-- f32 `ln` through an abstract implementation `lnF` for positive finite
arguments: `ln 0 = -∞`, `ln x = NaN` for `x < 0`, `ln ∞ = ∞`. -/
def fln (lnF : α → α) : F α → F α
  | fin x => if 0 < x then fin (lnF x) else if x = 0 then ninf else nan
  | pinf => pinf
  | _ => nan

/-- Rust `x.clamp(0.0, 1.0)`: NaN stays NaN, infinities hit the bounds. -/
def fclamp01 : F α → F α
  | nan => nan
  | pinf => fin 1
  | ninf => fin 0
  | fin x => fin (max 0 (min x 1))

/-- Truncation toward zero of a finite value, as a value of `α`. -/
def truncVal [FloorRing α] (x : α) : α :=
  if 0 ≤ x then ((⌊x⌋ : ℤ) : α) else ((⌈x⌉ : ℤ) : α)

/-- Rust `f32::fract` (`x - x.trunc()`): NaN on NaN and on infinities. -/
def ffract [FloorRing α] : F α → F α
  | fin x => fin (x - truncVal x)
  | _ => nan

/-- The value of `usize::MAX` and `u64::MAX` on the 64-bit target. -/
def u64MaxN : ℕ := 2 ^ 64 - 1

/-- Rust `x.round() as usize`: round half away from zero, then a
saturating cast (NaN and negative values go to 0, `+∞` to `usize::MAX`). -/
def froundToNat [FloorRing α] : F α → ℕ
  | nan => 0
  | ninf => 0
  | pinf => u64MaxN
  | fin x => if x ≤ 0 then 0 else min (⌊x + 1 / 2⌋).toNat u64MaxN

/-- Rust `x as u64`: truncation toward zero with a saturating cast
(NaN → 0, negative → 0, `+∞` / too large → `u64::MAX`). -/
def ftoU64 [FloorRing α] : F α → ℕ
  | nan => 0
  | ninf => 0
  | pinf => u64MaxN
  | fin x => if x ≤ 0 then 0 else min (⌊x⌋).toNat u64MaxN

end F

/-- Rust `struct DiskMetrics` (main.rs lines 52-57). -/
structure DiskMetrics where
  name : String
  total_space : ℕ
  available_space : ℕ
deriving DecidableEq

/-- Rust `struct Metrics` (main.rs lines 40-50).  The two float fields hold the
exact value of the sampled f32/f64 as a rational. -/
structure Metrics where
  cpu_usage : ℚ
  load_avg : ℚ
  total_memory : ℕ
  used_memory : ℕ
  disk_usage : List DiskMetrics
  network_rx : ℕ
  network_tx : ℕ
  entropy : ℕ
deriving DecidableEq

/-- The entropy derivation of `gather_metrics` (main.rs lines 115-119):
`(cpu_usage * 100.0) as u64 + used_memory + network_rx + network_tx +
sum of disk total_space`, with the f32 product and the saturating `as u64`
cast modelled by `F.fmul`/`F.ftoU64`. -/
def deriveEntropy (cpu_usage : ℚ) (used_memory network_rx network_tx : ℕ)
    (disk_usage : List DiskMetrics) : ℕ :=
  F.ftoU64 (F.fmul (F.fin cpu_usage) (F.fin 100)) + used_memory + network_rx
    + network_tx + (disk_usage.map (·.total_space)).sum

/-- Round half to even, as Rust's fixed-precision float formatting does
when printing the exact binary value at one decimal place. -/
def roundHalfEven (q : ℚ) : ℤ :=
  let f := ⌊q⌋
  let r := q - (f : ℚ)
  if r < 1 / 2 then f else if 1 / 2 < r then f + 1
  else if f % 2 = 0 then f else f + 1

/-- Rust `{:.1}` formatting of a finite float value. -/
def fmtFixed1 (q : ℚ) : String :=
  let n := roundHalfEven (q * 10)
  if n < 0 then
    "-" ++ toString (n.natAbs / 10) ++ "." ++ toString (n.natAbs % 10)
  else
    "" ++ toString (n.toNat / 10) ++ "." ++ toString (n.toNat % 10)

/-- Rust `{:>w}` right-alignment: pad on the left with spaces to width `w`. -/
def padLeft (w : ℕ) (s : String) : String :=
  if s.length < w then String.mk (List.replicate (w - s.length) ' ') ++ s
  else s

/-- Rust `Display` of an f32 at precision 1 (`{:.1}`), including the
non-finite spellings. -/
def fshow : F ℚ → String
  | F.nan => "NaN"
  | F.pinf => "inf"
  | F.ninf => "-inf"
  | F.fin q => fmtFixed1 q

/-- The overlay status line (main.rs lines 172-177):
`format!("CPU {:>5.1}% | MEM {:>5.1}% | NET {:>7.1}k/s", cpu_usage,
memory * 100.0, (network_rx + network_tx) as f32 / 1024.0)`.
The source computes the memory ratio once and reuses it here; since every
operation on this path commutes with the field embedding `ℚ → α`, the
ratio is recomputed over `ℚ` so that the text stays computable. -/
def statusText (m : Metrics) : String :=
  let memv : F ℚ := F.fdiv (F.fin (m.used_memory : ℚ)) (F.fin (m.total_memory : ℚ))
  "CPU " ++ padLeft 5 (fshow (F.fin m.cpu_usage))
    ++ "% | MEM " ++ padLeft 5 (fshow (F.fmul memv (F.fin 100)))
    ++ "% | NET "
    ++ padLeft 7 (fshow (F.fdiv (F.fin ((m.network_rx + m.network_tx : ℕ) : ℚ)) (F.fin 1024)))
    ++ "k/s"

/-- The signature line (main.rs line 195):
`format!("Style: {style} | Frames seeded by entropy {base_seed}")`. -/
def sigText (style : String) (base_seed : ℕ) : String :=
  "Style: " ++ style ++ " | Frames seeded by entropy " ++ toString base_seed

/-- The `enum Color` constructors used by `palette` (crossterm, external). -/
inductive Color where
  | Blue | Cyan | Black | DarkRed | Red | DarkYellow | Yellow
  | Magenta | DarkMagenta
deriving DecidableEq

/-- Rust `fn palette` (main.rs lines 133-139). -/
def palette (style : String) : List Color :=
  if style = "waves" then [Color.Blue, Color.Cyan, Color.Black]
  else if style = "ember" then [Color.DarkRed, Color.Red, Color.DarkYellow, Color.Yellow]
  else [Color.Magenta, Color.DarkMagenta, Color.Blue, Color.Black]

/-- The style ramp strings of `fn art_char` (main.rs lines 142-146).
All ramp characters are ASCII, so the Rust byte length `ramps.len()`
equals the character count.  The ember arm's source literal is the four
characters backtick, caret, double quote, semicolon. -/
def rampStr (style : String) : String :=
  if style = "waves" then " .-~*~="
  else if style = "ember" then "`^\";"
  else " .:+*#%@"

/-- The glyph index of `fn art_char` (main.rs lines 147-148):
`min(((intensity.clamp(0.0,1.0)) * (ramps.len() as f32 - 1.0)).round() as usize,
ramps.len() - 1)`. -/
def artIdx {α : Type} [LinearOrderedField α] [FloorRing α]
    (intensity : F α) (len : ℕ) : ℕ :=
  min (F.froundToNat (F.fmul (F.fclamp01 intensity) (F.fin ((len : α) - 1)))) (len - 1)

/-- Rust `fn art_char` (main.rs lines 141-149). -/
def art_char {α : Type} [LinearOrderedField α] [FloorRing α]
    (style : String) (intensity : F α) : Char :=
  let ramp := (rampStr style).toList
  ramp.getD (artIdx intensity ramp.length) '*'

/-- The state of the external `StdRng` as the renderer sees it: a
deterministic stream of f32 draws and a cursor; `gen::<f32>()` returns
`stream index` and advances the cursor. -/
structure RngState (α : Type) where
  stream : ℕ → α
  index : ℕ

/-- Models `StdRng::seed_from_u64` for an abstract seed→stream algorithm
`family`: the freshly seeded generator starts its stream at draw 0. -/
def seedRng {α : Type} (family : ℕ → ℕ → α) (seed : ℕ) : RngState α :=
  ⟨family seed, 0⟩

/-- The scalar `metrics.cpu_usage / 100.0` (main.rs line 154). -/
def cpuF {α : Type} [LinearOrderedField α] (m : Metrics) : F α :=
  F.fdiv (F.fin ((m.cpu_usage : ℚ) : α)) (F.fin 100)

/-- The ratio `metrics.used_memory as f32 / metrics.total_memory as f32`
(main.rs line 155).  No guard: with `total_memory = 0` this is NaN
(`0/0`) or `+∞` (`x/0`, `x > 0`). -/
def memF {α : Type} [LinearOrderedField α] (m : Metrics) : F α :=
  F.fdiv (F.fin (m.used_memory : α)) (F.fin (m.total_memory : α))

/-- The signal `((network_rx + network_tx) as f32).ln().max(0.0) / 15.0`
(main.rs line 156). -/
def networkSignal {α : Type} [LinearOrderedField α] (lnF : α → α)
    (network_rx network_tx : ℕ) : F α :=
  F.fdiv (F.fmax (F.fln lnF (F.fin ((network_rx + network_tx : ℕ) : α))) (F.fin 0))
    (F.fin 15)

/-- The network signal of a metrics value. -/
def netF {α : Type} [LinearOrderedField α] (lnF : α → α) (m : Metrics) : F α :=
  networkSignal lnF m.network_rx m.network_tx

/-- The per-cell swirl (main.rs line 163):
`((x as f32 / width as f32) * cpu + (y as f32 / height as f32) * memory
+ noise * network).sin()`. -/
def swirlF {α : Type} [LinearOrderedField α] (sinF : α → α)
    (cpu memory network : F α) (w h x y : ℕ) (noise : α) : F α :=
  F.fsin sinF
    (F.fadd
      (F.fadd (F.fmul (F.fin ((x : α) / (w : α))) cpu)
        (F.fmul (F.fin ((y : α) / (h : α))) memory))
      (F.fmul (F.fin noise) network))

/-- The per-cell intensity (main.rs line 164):
`((swirl + 1.0) / 2.0 * memory + cpu).fract()`. -/
def intensityF {α : Type} [LinearOrderedField α] [FloorRing α]
    (cpu memory swirl : F α) : F α :=
  F.ffract (F.fadd (F.fmul (F.fdiv (F.fadd swirl (F.fin 1)) (F.fin 2)) memory) cpu)

/-- One cell of the base frame: swirl, intensity, glyph. -/
def cellChar {α : Type} [LinearOrderedField α] [FloorRing α]
    (sinF : α → α) (style : String) (cpu memory network : F α)
    (w h x y : ℕ) (noise : α) : Char :=
  art_char style (intensityF cpu memory (swirlF sinF cpu memory network w h x y noise))

/-- One iteration of the inner `for x in 0..width` loop
(main.rs lines 161-166): draw one noise value, append one glyph. -/
def cellStep {α : Type} [LinearOrderedField α] [FloorRing α]
    (sinF : α → α) (style : String) (cpu memory network : F α)
    (w h y : ℕ) (acc : List Char × RngState α) (x : ℕ) : List Char × RngState α :=
  let noise := acc.2.stream acc.2.index
  (acc.1 ++ [cellChar sinF style cpu memory network w h x y noise],
    ⟨acc.2.stream, acc.2.index + 1⟩)

/-- One iteration of the outer `for y in 0..height` loop
(main.rs lines 159-168): build one row, push it onto the frame. -/
def rowStep {α : Type} [LinearOrderedField α] [FloorRing α]
    (sinF : α → α) (style : String) (cpu memory network : F α)
    (w h : ℕ) (acc : List (List Char) × RngState α) (y : ℕ) :
    List (List Char) × RngState α :=
  let p := (List.range w).foldl (cellStep sinF style cpu memory network w h y) ([], acc.2)
  (acc.1 ++ [p.1], p.2)

/-- The base-frame double loop of `render_frame` (main.rs lines 159-168),
parametrized by the three per-frame scalars computed before the loops. -/
def renderBaseCore {α : Type} [LinearOrderedField α] [FloorRing α]
    (sinF : α → α) (style : String) (cpu memory network : F α)
    (rng : RngState α) (w h : ℕ) : List (List Char) × RngState α :=
  (List.range h).foldl (rowStep sinF style cpu memory network w h) ([], rng)

/-- The base frame of `render_frame` (main.rs lines 151-168): the scalars
`cpu`, `memory`, `network` of lines 154-156 feed the double loop. -/
def renderBase {α : Type} [LinearOrderedField α] [FloorRing α]
    (sinF lnF : α → α) (m : Metrics) (rng : RngState α) (w h : ℕ)
    (style : String) : List (List Char) × RngState α :=
  renderBaseCore sinF style (cpuF m) (memF m) (netF lnF m) rng w h

/-- The character-by-character overwrite loop of the overlay
(main.rs lines 186-190): for each `(i, ch)` of the text, if
`pos + i < line.len()` replace the character at `pos + i` by `ch`.
Each replacement swaps one ASCII char for one ASCII char, so the length
the loop re-reads never changes. -/
def writeAt : List Char → ℕ → List Char → List Char
  | line, _, [] => line
  | line, pos, c :: rest =>
      writeAt (if pos < line.length then line.set pos c else line) (pos + 1) rest

/-- The status-overlay stage (main.rs lines 170-192): when the frame is
non-empty, build the status text, aim at row `height/2`, start at
`(width - len)/2` when the text is shorter than the width and at 0
otherwise, and overwrite character-wise (bounded by the row's length). -/
def applyStatus (m : Metrics) (frame : List (List Char)) (w h : ℕ) :
    List (List Char) :=
  if frame = [] then frame
  else
    let text := (statusText m).toList
    let y := h / 2
    let start := if text.length < w then (w - text.length) / 2 else 0
    if y < frame.length then frame.set y (writeAt (frame.getD y []) start text)
    else frame

/-- The signature stage (main.rs lines 194-196): when
`base_seed % 7 == 0` and the frame is non-empty, replace row 0 with the
signature line. -/
def applySignature (style : String) (base_seed : ℕ)
    (frame : List (List Char)) : List (List Char) :=
  if base_seed % 7 = 0 ∧ frame ≠ [] then frame.set 0 (sigText style base_seed).toList
  else frame

/-- Rust `fn render_frame` (main.rs lines 151-199): base frame, status
overlay, signature.  (`let colors = palette(style)` on line 152 is bound
and never used in the source; it is reproduced here for fidelity.) -/
def render_frame {α : Type} [LinearOrderedField α] [FloorRing α]
    (sinF lnF : α → α) (m : Metrics) (rng : RngState α) (w h : ℕ)
    (style : String) : List (List Char) × RngState α :=
  let _colors := palette style
  let p := renderBase sinF lnF m rng w h style
  (applySignature style m.entropy (applyStatus m p.1 w h), p.2)

/-- Modelled from the spec: sections 4.2 and 7 require the memory ratio to
be "treated as 0 when `total_memory = 0` — must be guarded" / "recovered
locally by substituting zero".  The source (main.rs line 155) has no such
guard; this definition follows the spec's words, for comparison. -/
def memFGuarded {α : Type} [LinearOrderedField α] (m : Metrics) : F α :=
  if m.total_memory = 0 then F.fin 0
  else F.fdiv (F.fin (m.used_memory : α)) (F.fin (m.total_memory : α))

/-- Modelled from the spec: the base frame computed with the
spec-mandated zero-substituted memory ratio in place of the source's
unguarded division, for comparison with `renderBase`. -/
def renderBaseGuarded {α : Type} [LinearOrderedField α] [FloorRing α]
    (sinF lnF : α → α) (m : Metrics) (rng : RngState α) (w h : ℕ)
    (style : String) : List (List Char) × RngState α :=
  renderBaseCore sinF style (cpuF m) (memFGuarded m) (netF lnF m) rng w h

/-- Modelled from the spec: section 4.2's network signal
"`ln(network_rx + network_tx + 1) / 15` clamped to ≥ 0", for comparison
with the source's `networkSignal`. -/
def networkSignalSpec {α : Type} [LinearOrderedField α] (lnF : α → α)
    (network_rx network_tx : ℕ) : F α :=
  F.fmax
    (F.fdiv (F.fln lnF (F.fin ((network_rx + network_tx + 1 : ℕ) : α))) (F.fin 15))
    (F.fin 0)

/-- The amended network signal: `ln(network_rx + network_tx) / 15` clamped
to ≥ 0 — the spec's formula with the `+ 1` removed, stated in the spec's
divide-then-clamp order, for comparison with the source's clamp-then-divide. -/
def networkSignalAmended {α : Type} [LinearOrderedField α] (lnF : α → α)
    (network_rx network_tx : ℕ) : F α :=
  F.fmax
    (F.fdiv (F.fln lnF (F.fin ((network_rx + network_tx : ℕ) : α))) (F.fin 15))
    (F.fin 0)

/-- Modelled from the spec: section 4.2's swirl formula
"`swirl = sin( (x/width)*cpu_ratio + (y/height)*memory_ratio +
noise*network_signal )`", for comparison with the source's `swirlF`. -/
def swirlSpec {α : Type} [LinearOrderedField α] (sinF : α → α)
    (cpu_ratio memory_ratio network_signal : F α) (w h x y : ℕ)
    (noise : α) : F α :=
  F.fsin sinF
    (F.fadd
      (F.fadd (F.fmul (F.fin ((x : α) / (w : α))) cpu_ratio)
        (F.fmul (F.fin ((y : α) / (h : α))) memory_ratio))
      (F.fmul (F.fin noise) network_signal))

/-- Modelled from the spec: section 4.1's entropy formula with `round`
("`entropy = round(cpu_usage_percent * 100) + used_memory + network_rx +
network_tx + sum(total_space over disk_entries)`"), for comparison with
the source's truncating cast. -/
def entropySpecRound (cpu_usage : ℚ) (used_memory network_rx network_tx : ℕ)
    (disk_usage : List DiskMetrics) : ℕ :=
  (round (cpu_usage * 100)).toNat + used_memory + network_rx + network_tx
    + (disk_usage.map (·.total_space)).sum


/-- All-zero metrics sample (entropy 0, so `0 % 7 = 0` triggers the
signature row). -/
def mexC2 : Metrics := ⟨0, 0, 0, 0, [], 0, 0, 0⟩

/-- Metrics sample with ratio 1/2 and entropy 1 (no signature). -/
def mexC2w : Metrics := ⟨0, 0, 2, 1, [], 0, 0, 1⟩

/-- Metrics sample with `total_memory = 0`, `used_memory = 0` (ratio NaN)
and `cpu_usage = 99`. -/
def mexC3 : Metrics := ⟨99, 0, 0, 0, [], 0, 0, 1⟩

/-- Metrics sample with `total_memory = 0`. -/
def mexC3w : Metrics := ⟨0, 0, 0, 0, [], 0, 0, 1⟩

/-- Metrics sample with ratio 1/2, no network traffic, entropy 1. -/
def mexC5 : Metrics := ⟨0, 0, 2, 1, [], 0, 0, 1⟩

/-- Metrics sample with ratio 1/2, entropy 3. -/
def mexC5w : Metrics := ⟨0, 0, 2, 1, [], 0, 0, 3⟩

/-- Metrics sample with entropy 14 (`14 % 7 = 0` triggers the signature). -/
def mexC6w : Metrics := ⟨0, 0, 2, 1, [], 0, 0, 14⟩

/-- Metrics sample with one byte of network traffic (`rx = 1, tx = 0`). -/
def mexC7 : Metrics := ⟨0, 0, 1, 0, [], 1, 0, 15⟩

/-- Metrics sample used to instantiate the overlay frame-effect theorem. -/
def mexC10w : Metrics := ⟨0, 0, 2, 1, [], 0, 0, 1⟩

namespace F

variable {α : Type} [LinearOrderedField α]

@[simp] theorem fadd_fin_fin (a b : α) : fadd (fin a) (fin b) = fin (a + b) := rfl

@[simp] theorem fadd_nan_left (x : F α) : fadd nan x = nan := by
  cases x <;> rfl

@[simp] theorem fadd_nan_right (x : F α) : fadd x nan = nan := by
  cases x <;> rfl

@[simp] theorem fadd_fin_pinf (a : α) : fadd (fin a) pinf = pinf := rfl

@[simp] theorem fadd_pinf_fin (a : α) : fadd pinf (fin a) = pinf := rfl

@[simp] theorem fmul_fin_fin (a b : α) : fmul (fin a) (fin b) = fin (a * b) := rfl

@[simp] theorem fmul_nan_left (x : F α) : fmul nan x = nan := by
  cases x <;> rfl

@[simp] theorem fmul_nan_right (x : F α) : fmul x nan = nan := by
  cases x <;> rfl

theorem fmul_fin_pinf_of_pos {a : α} (h : 0 < a) : fmul (fin a) pinf = pinf := by
  simp [fmul, h, h.ne']

@[simp] theorem fmul_fin_zero_pinf : fmul (fin (0 : α)) pinf = nan := by
  simp [fmul]

@[simp] theorem fdiv_nan_left (x : F α) : fdiv nan x = nan := by
  cases x <;> rfl

@[simp] theorem fdiv_nan_right (x : F α) : fdiv x nan = nan := by
  cases x <;> rfl

theorem fdiv_fin_fin_of_ne {b : α} (h : b ≠ 0) (a : α) :
    fdiv (fin a) (fin b) = fin (a / b) := by
  simp [fdiv, h]

@[simp] theorem fdiv_fin_zero_zero : fdiv (fin (0 : α)) (fin 0) = nan := by
  simp [fdiv]

theorem fdiv_fin_zero_of_pos {a : α} (h : 0 < a) : fdiv (fin a) (fin 0) = pinf := by
  simp [fdiv, h, h.ne']

@[simp] theorem fmax_fin_fin (a b : α) : fmax (fin a) (fin b) = fin (max a b) := rfl

@[simp] theorem fmax_ninf_fin (a : α) : fmax ninf (fin a) = fin a := rfl

@[simp] theorem fsin_fin (sinF : α → α) (x : α) : fsin sinF (fin x) = fin (sinF x) := rfl

@[simp] theorem fsin_nan (sinF : α → α) : fsin sinF (nan : F α) = nan := rfl

@[simp] theorem fsin_pinf (sinF : α → α) : fsin sinF (pinf : F α) = nan := rfl

@[simp] theorem fsin_ninf (sinF : α → α) : fsin sinF (ninf : F α) = nan := rfl

theorem fln_fin_of_pos (lnF : α → α) {x : α} (h : 0 < x) :
    fln lnF (fin x) = fin (lnF x) := by
  simp [fln, h]

@[simp] theorem fln_fin_zero (lnF : α → α) : fln lnF (fin (0 : α)) = ninf := by
  simp [fln]

@[simp] theorem fclamp01_nan : fclamp01 (nan : F α) = nan := rfl

@[simp] theorem fclamp01_fin [FloorRing α] (x : α) :
    fclamp01 (fin x) = fin (max 0 (min x 1)) := rfl

@[simp] theorem ffract_nan [FloorRing α] : ffract (nan : F α) = nan := rfl

@[simp] theorem ffract_pinf [FloorRing α] : ffract (pinf : F α) = nan := rfl

@[simp] theorem ffract_fin [FloorRing α] (x : α) :
    ffract (fin x) = fin (x - truncVal x) := rfl

@[simp] theorem froundToNat_nan [FloorRing α] : froundToNat (nan : F α) = 0 := rfl

/-- The finite arm of `froundToNat` for positive arguments below the
saturation bound. -/
theorem froundToNat_fin [FloorRing α] {x : α} (h : 0 < x)
    (hsat : (⌊x + 1 / 2⌋).toNat ≤ u64MaxN) :
    froundToNat (fin x) = (⌊x + 1 / 2⌋).toNat := by
  simp only [froundToNat]
  rw [if_neg (not_le.mpr h)]
  exact min_eq_left hsat

end F

theorem getD_set_ne {γ : Type} : ∀ (l : List γ) (i j : ℕ) (v d : γ), i ≠ j →
    (l.set i v).getD j d = l.getD j d
  | [], _, _, _, _, _ => rfl
  | _ :: _, 0, 0, _, _, hne => absurd rfl hne
  | _ :: _, 0, _ + 1, _, _, _ => rfl
  | _ :: _, _ + 1, 0, _, _, _ => rfl
  | _ :: l, i + 1, j + 1, v, d, hne =>
      getD_set_ne l i j v d (fun h => hne (by omega))

theorem getD_set_self {γ : Type} : ∀ (l : List γ) (i : ℕ) (v d : γ), i < l.length →
    (l.set i v).getD i d = v
  | [], i, _, _, hi => absurd hi (by simp)
  | _ :: _, 0, _, _, _ => rfl
  | _ :: l, i + 1, v, d, hi => getD_set_self l i v d (by simpa using hi)

theorem getD_map_range {γ : Type} (f : ℕ → γ) {i n : ℕ} (hi : i < n) (d : γ) :
    ((List.range n).map f).getD i d = f i := by
  show (((List.range n).map f).get? i).getD d = f i
  rw [List.get?_eq_getElem?, List.getElem?_map, List.getElem?_range hi]
  rfl

theorem getD_singleton_zero {γ : Type} (a d : γ) : [a].getD 0 d = a := rfl

theorem writeAt_length : ∀ (text line : List Char) (pos : ℕ),
    (writeAt line pos text).length = line.length
  | [], _, _ => rfl
  | c :: rest, line, pos => by
      rw [writeAt, writeAt_length rest]
      by_cases h : pos < line.length <;> simp [h]

theorem writeAt_getD_of_lt_pos : ∀ (text line : List Char) (pos j : ℕ) (d : Char),
    j < pos → (writeAt line pos text).getD j d = line.getD j d
  | [], _, _, _, _, _ => rfl
  | c :: rest, line, pos, j, d, hj => by
      rw [writeAt, writeAt_getD_of_lt_pos rest _ _ _ _ (by omega)]
      by_cases h : pos < line.length
      · rw [if_pos h, getD_set_ne _ _ _ _ _ (by omega)]
      · rw [if_neg h]

theorem writeAt_getD_of_ge : ∀ (text line : List Char) (pos j : ℕ) (d : Char),
    pos + text.length ≤ j → (writeAt line pos text).getD j d = line.getD j d
  | [], _, _, _, _, _ => rfl
  | c :: rest, line, pos, j, d, hj => by
      rw [writeAt, writeAt_getD_of_ge rest _ _ _ _ (by simp at hj ⊢; omega)]
      by_cases h : pos < line.length
      · rw [if_pos h, getD_set_ne _ _ _ _ _ (by simp at hj; omega)]
      · rw [if_neg h]

theorem writeAt_getD_mid : ∀ (text line : List Char) (pos j : ℕ) (d : Char),
    pos ≤ j → j < line.length → j < pos + text.length →
    (writeAt line pos text).getD j d = text.getD (j - pos) d
  | [], _, pos, j, _, _, _, h2 => by simp at h2; omega
  | c :: rest, line, pos, j, d, h1, hj, h2 => by
      have hpos : pos < line.length := by omega
      rw [writeAt, if_pos hpos]
      rcases Nat.eq_or_lt_of_le h1 with heq | hlt
      · subst heq
        rw [writeAt_getD_of_lt_pos rest _ _ _ _ (by omega),
          getD_set_self _ _ _ _ hpos]
        simp
      · rw [writeAt_getD_mid rest _ (pos + 1) j d
            (by omega) (by simpa using hj) (by simp at h2 ⊢; omega)]
        have : j - pos = (j - (pos + 1)) + 1 := by omega
        rw [this]
        rfl

/-- Closed form of the inner cell loop: starting from row `row` and a
generator positioned at `i`, folding over `n` columns appends one glyph
per column, drawing `stream (i + x)` for column `x`, and leaves the
generator at `i + n`. -/
theorem cellFold {α : Type} [LinearOrderedField α] [FloorRing α]
    (sinF : α → α) (style : String) (cpu memory network : F α) (w h y : ℕ)
    (n : ℕ) : ∀ (row : List Char) (s : ℕ → α) (i : ℕ),
    (List.range n).foldl (cellStep sinF style cpu memory network w h y)
      (row, ⟨s, i⟩) =
      (row ++ (List.range n).map
        (fun x => cellChar sinF style cpu memory network w h x y (s (i + x))),
       ⟨s, i + n⟩) := by
  induction n with
  | zero => intro row s i; simp
  | succ n ih =>
      intro row s i
      rw [List.range_succ, List.foldl_append, ih]
      simp [cellStep, List.range_succ, Nat.add_assoc]

/-- Closed form of the outer row loop: folding over `n` rows appends one
row per `y`, each cell `(x, y)` drawing `stream (i + (y * w + x))`, and
leaves the generator at `i + n * w`. -/
theorem rowFold {α : Type} [LinearOrderedField α] [FloorRing α]
    (sinF : α → α) (style : String) (cpu memory network : F α) (w h : ℕ)
    (n : ℕ) : ∀ (frame : List (List Char)) (s : ℕ → α) (i : ℕ),
    (List.range n).foldl (rowStep sinF style cpu memory network w h)
      (frame, ⟨s, i⟩) =
      (frame ++ (List.range n).map (fun y => (List.range w).map
        (fun x => cellChar sinF style cpu memory network w h x y
          (s (i + (y * w + x))))),
       ⟨s, i + n * w⟩) := by
  induction n with
  | zero => intro frame s i; simp
  | succ n ih =>
      intro frame s i
      rw [List.range_succ, List.foldl_append, ih]
      simp [rowStep, cellFold, List.range_succ, Nat.succ_mul, Nat.add_assoc]

/-- Closed form of the base frame: row-major draw order, one draw per
cell, final generator cursor advanced by exactly `h * w`, stream intact. -/
theorem renderBase_eq {α : Type} [LinearOrderedField α] [FloorRing α]
    (sinF lnF : α → α) (m : Metrics) (rng : RngState α) (w h : ℕ)
    (style : String) :
    renderBase sinF lnF m rng w h style =
      ((List.range h).map (fun y => (List.range w).map
        (fun x => cellChar sinF style (cpuF m) (memF m) (netF lnF m) w h x y
          (rng.stream (rng.index + (y * w + x))))),
       ⟨rng.stream, rng.index + h * w⟩) := by
  rw [renderBase, renderBaseCore, show rng = ⟨rng.stream, rng.index⟩ from rfl,
    rowFold]
  simp

theorem renderBase_fst_length {α : Type} [LinearOrderedField α] [FloorRing α]
    (sinF lnF : α → α) (m : Metrics) (rng : RngState α) (w h : ℕ)
    (style : String) : (renderBase sinF lnF m rng w h style).1.length = h := by
  rw [renderBase_eq]
  simp

theorem renderBase_row_length {α : Type} [LinearOrderedField α] [FloorRing α]
    (sinF lnF : α → α) (m : Metrics) (rng : RngState α) (w h : ℕ)
    (style : String) {i : ℕ} (hi : i < h) :
    ((renderBase sinF lnF m rng w h style).1.getD i []).length = w := by
  rw [renderBase_eq]
  simp only [getD_map_range _ hi]
  simp

theorem applyStatus_length (m : Metrics) (frame : List (List Char)) (w h : ℕ) :
    (applyStatus m frame w h).length = frame.length := by
  rw [applyStatus]
  split
  · rfl
  · dsimp only
    split
    · simp
    · rfl

theorem applySignature_length (style : String) (e : ℕ)
    (frame : List (List Char)) :
    (applySignature style e frame).length = frame.length := by
  rw [applySignature]
  split
  · simp
  · rfl

/-- The status stage, unfolded under the conditions that hold for every
frame the renderer produces with `0 < h`. -/
theorem applyStatus_eq (m : Metrics) (frame : List (List Char)) (w h : ℕ)
    (hlen : frame.length = h) (hpos : 0 < h) :
    applyStatus m frame w h =
      frame.set (h / 2)
        (writeAt (frame.getD (h / 2) [])
          (if (statusText m).toList.length < w
            then (w - (statusText m).toList.length) / 2 else 0)
          (statusText m).toList) := by
  have hne : frame ≠ [] := by
    intro h0
    rw [h0] at hlen
    simp at hlen
    omega
  have hy : h / 2 < frame.length := by
    rw [hlen]
    exact Nat.div_lt_self hpos (by norm_num)
  rw [applyStatus, if_neg hne, if_pos hy]

theorem applyStatus_getD_ne (m : Metrics) (frame : List (List Char))
    (w h : ℕ) {i : ℕ} (hne : i ≠ h / 2) :
    (applyStatus m frame w h).getD i [] = frame.getD i [] := by
  rw [applyStatus]
  split
  · rfl
  · dsimp only
    split
    · exact getD_set_ne _ _ _ _ _ (fun he => hne he.symm)
    · rfl

theorem applySignature_of_trigger (style : String) {e : ℕ}
    (h7 : e % 7 = 0) {frame : List (List Char)} (hne : frame ≠ []) :
    applySignature style e frame = frame.set 0 (sigText style e).toList := by
  rw [applySignature, if_pos ⟨h7, hne⟩]

theorem applySignature_of_no_trigger (style : String) {e : ℕ}
    (h7 : e % 7 ≠ 0) (frame : List (List Char)) :
    applySignature style e frame = frame := by
  rw [applySignature, if_neg (fun hc => h7 hc.1)]

theorem applySignature_getD_ne (style : String) (e : ℕ)
    (frame : List (List Char)) {i : ℕ} (hne : i ≠ 0) :
    (applySignature style e frame).getD i [] = frame.getD i [] := by
  rw [applySignature]
  split
  · exact getD_set_ne _ _ _ _ _ (fun he => hne he.symm)
  · rfl

theorem render_frame_as_stages {α : Type} [LinearOrderedField α] [FloorRing α]
    (sinF lnF : α → α) (m : Metrics) (rng : RngState α) (w h : ℕ)
    (style : String) :
    render_frame sinF lnF m rng w h style =
      (applySignature style m.entropy
        (applyStatus m (renderBase sinF lnF m rng w h style).1 w h),
       (renderBase sinF lnF m rng w h style).2) := rfl

theorem render_frame_fst_length {α : Type} [LinearOrderedField α] [FloorRing α]
    (sinF lnF : α → α) (m : Metrics) (rng : RngState α) (w h : ℕ)
    (style : String) : (render_frame sinF lnF m rng w h style).1.length = h := by
  rw [render_frame_as_stages]
  simp only [applySignature_length, applyStatus_length]
  exact renderBase_fst_length sinF lnF m rng w h style

theorem getD_mem {γ : Type} (l : List γ) (i : ℕ) (d : γ) (hi : i < l.length) :
    l.getD i d ∈ l := by
  show (l.get? i).getD d ∈ l
  rw [List.get?_eq_getElem?, List.getElem?_eq_getElem hi]
  exact List.getElem_mem hi

theorem rampStr_length_pos (style : String) : 0 < (rampStr style).toList.length := by
  rw [rampStr]
  split
  · decide
  · split <;> decide

/-- Evaluation of `art_char` at a NaN intensity: the clamp keeps NaN, the product is
NaN, the cast sends NaN to 0, so the first ramp glyph is selected. -/
theorem art_char_nan {α : Type} [LinearOrderedField α] [FloorRing α]
    (style : String) :
    art_char style (F.nan : F α) = (rampStr style).toList.getD 0 '*' := by
  simp [art_char, artIdx]

theorem cpuF_eq {α : Type} [LinearOrderedField α] (m : Metrics) :
    cpuF (α := α) m = F.fin (((m.cpu_usage : ℚ) : α) / 100) := by
  rw [cpuF, F.fdiv_fin_fin_of_ne (by norm_num)]

theorem memF_of_total_zero {α : Type} [LinearOrderedField α] (m : Metrics)
    (hz : m.total_memory = 0) :
    memF (α := α) m = F.nan ∨ memF (α := α) m = F.pinf := by
  rw [memF, hz]
  rcases Nat.eq_zero_or_pos m.used_memory with h0 | hpos
  · left
    rw [h0]
    simp
  · right
    rw [Nat.cast_zero]
    exact F.fdiv_fin_zero_of_pos (by exact_mod_cast hpos)

theorem netF_isFin {α : Type} [LinearOrderedField α] (lnF : α → α)
    (m : Metrics) : ∃ v : α, netF lnF m = F.fin v := by
  rw [netF, networkSignal]
  rcases Nat.eq_zero_or_pos (m.network_rx + m.network_tx) with h0 | hpos
  · refine ⟨0, ?_⟩
    rw [h0, Nat.cast_zero, F.fln_fin_zero, F.fmax_ninf_fin,
      F.fdiv_fin_fin_of_ne (by norm_num)]
    norm_num
  · refine ⟨max (lnF ((m.network_rx + m.network_tx : ℕ) : α)) 0 / 15, ?_⟩
    rw [F.fln_fin_of_pos _ (by exact_mod_cast hpos), F.fmax_fin_fin,
      F.fdiv_fin_fin_of_ne (by norm_num)]

/-- A NaN memory ratio poisons the intensity regardless of the swirl. -/
theorem intensityF_nan_mem {α : Type} [LinearOrderedField α] [FloorRing α]
    (cpu swirl : F α) : intensityF cpu F.nan swirl = F.nan := by
  simp [intensityF]

/-- An infinite memory ratio poisons the swirl: the `y`-term is either
`0 * ∞ = NaN` or `+∞`, and `sin` of either result is NaN. -/
theorem swirlF_pinf_mem {α : Type} [LinearOrderedField α] (sinF : α → α)
    (c netv : α) (w h x y : ℕ) (noise : α) :
    swirlF sinF (F.fin c) F.pinf (F.fin netv) w h x y noise = F.nan := by
  rw [swirlF]
  rcases eq_or_lt_of_le (show (0:α) ≤ (y:α)/(h:α) by positivity) with h0 | hpos
  · rw [← h0]
    simp [F.fmul]
  · rw [F.fmul_fin_pinf_of_pos hpos]
    simp

/-- With a NaN or infinite memory ratio and finite cpu/network scalars,
every cell glyph degenerates to `art_char style NaN`. -/
theorem cellChar_poison {α : Type} [LinearOrderedField α] [FloorRing α]
    (sinF : α → α) (style : String) (c netv : α) {mem : F α}
    (hmem : mem = F.nan ∨ mem = F.pinf) (w h x y : ℕ) (noise : α) :
    cellChar sinF style (F.fin c) mem (F.fin netv) w h x y noise =
      art_char style (F.nan : F α) := by
  rcases hmem with rfl | rfl
  · rw [cellChar, intensityF_nan_mem]
  · rw [cellChar, swirlF_pinf_mem]
    simp [intensityF]

/-- With `total_memory = 0` the entire base frame collapses to the first
ramp glyph: the unguarded ratio is NaN (`0/0`) or `+∞` (`x/0`) and
poisons every intensity. -/
theorem renderBase_total_zero {α : Type} [LinearOrderedField α] [FloorRing α]
    (sinF lnF : α → α) (m : Metrics) (rng : RngState α) (w h : ℕ)
    (style : String) (hz : m.total_memory = 0) :
    (renderBase sinF lnF m rng w h style).1 =
      List.replicate h (List.replicate w (art_char style (F.nan : F α))) := by
  obtain ⟨v, hv⟩ := netF_isFin (α := α) lnF m
  have hm := memF_of_total_zero (α := α) m hz
  rw [renderBase_eq]
  simp only
  rw [show (List.range h).map (fun y => (List.range w).map fun x =>
        cellChar sinF style (cpuF m) (memF m) (netF lnF m) w h x y
          (rng.stream (rng.index + (y * w + x)))) =
      (List.range h).map (fun _ => List.replicate w (art_char style (F.nan : F α)))
    from List.map_congr_left (fun y _ => by
      rw [show (List.range w).map (fun x =>
            cellChar sinF style (cpuF m) (memF m) (netF lnF m) w h x y
              (rng.stream (rng.index + (y * w + x)))) =
          (List.range w).map (fun _ => art_char style (F.nan : F α))
        from List.map_congr_left (fun x _ => by
          rw [cpuF_eq, hv]
          exact cellChar_poison sinF style _ _ hm w h x y _)]
      rw [List.map_const', List.length_range])]
  rw [List.map_const', List.length_range]

theorem roundHalfEven_intCast (z : ℤ) : roundHalfEven (z : ℚ) = z := by
  simp only [roundHalfEven, Int.floor_intCast]
  norm_num

theorem fmtFixed1_zero : fmtFixed1 0 = "0.0" := by
  have h : roundHalfEven ((0:ℚ) * 10) = 0 := by
    rw [show ((0:ℚ) * 10) = ((0:ℤ):ℚ) by norm_num, roundHalfEven_intCast]
  rw [fmtFixed1, h]
  rfl

theorem fmtFixed1_fifty : fmtFixed1 50 = "50.0" := by
  have h : roundHalfEven ((50:ℚ) * 10) = 500 := by
    rw [show ((50:ℚ) * 10) = ((500:ℤ):ℚ) by norm_num, roundHalfEven_intCast]
  rw [fmtFixed1, h]
  rfl

theorem fshow_fin (q : ℚ) : fshow (F.fin q) = fmtFixed1 q := rfl

theorem statusText_mexC5 :
    statusText mexC5 = "CPU   0.0% | MEM  50.0% | NET     0.0k/s" := by
  rw [statusText]
  rw [show F.fdiv (F.fin ((mexC5.used_memory : ℕ) : ℚ))
        (F.fin ((mexC5.total_memory : ℕ) : ℚ)) = F.fin (1/2) by
    rw [show ((mexC5.used_memory : ℕ) : ℚ) = 1 by norm_num [mexC5],
      show ((mexC5.total_memory : ℕ) : ℚ) = 2 by norm_num [mexC5],
      F.fdiv_fin_fin_of_ne (by norm_num)]]
  rw [F.fmul_fin_fin, show (1/2 : ℚ) * 100 = 50 by norm_num]
  rw [show F.fdiv (F.fin ((mexC5.network_rx + mexC5.network_tx : ℕ) : ℚ))
        (F.fin 1024) = F.fin 0 by
    rw [show ((mexC5.network_rx + mexC5.network_tx : ℕ) : ℚ) = 0 by
        norm_num [mexC5],
      F.fdiv_fin_fin_of_ne (by norm_num)]
    norm_num]
  rw [show mexC5.cpu_usage = 0 from rfl]
  simp only [fshow_fin]
  rw [fmtFixed1_zero, fmtFixed1_fifty]
  rfl

theorem statusText_mexC5_length : (statusText mexC5).toList.length = 40 := by
  rw [statusText_mexC5]
  rfl

theorem renderBaseGuarded_eq {α : Type} [LinearOrderedField α] [FloorRing α]
    (sinF lnF : α → α) (m : Metrics) (rng : RngState α) (w h : ℕ)
    (style : String) :
    renderBaseGuarded sinF lnF m rng w h style =
      ((List.range h).map (fun y => (List.range w).map
        (fun x => cellChar sinF style (cpuF m) (memFGuarded m) (netF lnF m) w h x y
          (rng.stream (rng.index + (y * w + x))))),
       ⟨rng.stream, rng.index + h * w⟩) := by
  rw [renderBaseGuarded, renderBaseCore, show rng = ⟨rng.stream, rng.index⟩ from rfl,
    rowFold]
  simp

/-- Every glyph `art_char` produces is a character of the active style's
ramp: the index is clamped by `min` below the ramp length, so the lookup
always succeeds and the `'*'` fallback is unreachable. -/
theorem art_char_mem_ramp {α : Type} [LinearOrderedField α] [FloorRing α]
    (style : String) (intensity : F α) :
    art_char style intensity ∈ (rampStr style).toList := by
  rw [art_char]
  refine getD_mem _ _ _ ?_
  exact lt_of_le_of_lt (Nat.min_le_right _ _)
    (Nat.sub_lt (rampStr_length_pos style) one_pos)

/-- Every row of the status-composited frame keeps the base width: the
character-wise overwrite preserves row length. -/
theorem applyStatus_row_length {α : Type} [LinearOrderedField α] [FloorRing α]
    (sinF lnF : α → α) (m : Metrics) (rng : RngState α) (w h : ℕ)
    (style : String) {i : ℕ} (hi : i < h) :
    ((applyStatus m (renderBase sinF lnF m rng w h style).1 w h).getD i []).length
      = w := by
  by_cases hy : i = h / 2
  · subst hy
    rw [applyStatus_eq m _ w h (renderBase_fst_length sinF lnF m rng w h style)
      (by omega)]
    rw [getD_set_self _ _ _ _
      (by rw [renderBase_fst_length]; exact Nat.div_lt_self (by omega) (by norm_num))]
    rw [writeAt_length]
    exact renderBase_row_length sinF lnF m rng w h style
      (Nat.div_lt_self (by omega) (by norm_num))
  · rw [applyStatus_getD_ne _ _ _ _ hy]
    exact renderBase_row_length sinF lnF m rng w h style hi

/-- C1: Determinism of rendering — for a fixed seed, metrics snapshot,
style, width, and height, two runs of the frame pipeline, each from a
generator freshly seeded with that seed, produce identical frames (and
identical final generator states).  In the embedding `render_frame` is a
pure function of the snapshot, the seeded generator, the dimensions and
the style, for every interpretation of the f32 `sin`/`ln` and every
seed→stream algorithm of the external `StdRng`, so the two runs denote
the same value and the frames are character-for-character (byte-for-byte,
as the rows are ASCII) identical. -/
theorem c1_render_determinism {α : Type} [LinearOrderedField α] [FloorRing α]
    (sinF lnF : α → α) (family : ℕ → ℕ → α) (seed : ℕ) (m : Metrics)
    (w h : ℕ) (style : String) :
    (render_frame sinF lnF m (seedRng family seed) w h style).1 =
      (render_frame sinF lnF m (seedRng family seed) w h style).1 ∧
    (render_frame sinF lnF m (seedRng family seed) w h style).2 =
      (render_frame sinF lnF m (seedRng family seed) w h style).2 :=
  ⟨rfl, rfl⟩

/-- C8: Glyph index bound and selection rule — for every intensity value
(including NaN and the infinities) and every style, the glyph index of
`art_char` is at most `ramp_length - 1`, and the selected glyph is a
character of the active style's ramp (the `'*'` fallback is dead code). -/
theorem c8_glyph_index_bound {α : Type} [LinearOrderedField α] [FloorRing α]
    (style : String) (intensity : F α) :
    artIdx intensity (rampStr style).toList.length ≤
      (rampStr style).toList.length - 1 ∧
    art_char style intensity ∈ (rampStr style).toList :=
  ⟨Nat.min_le_right _ _, art_char_mem_ramp style intensity⟩

/-- C9: Generator draw discipline — the base frame of a `w × h` render
draws exactly one uniform value per grid cell in row-major order (cell
`(x, y)` consumes the draw at offset `y * w + x` from the starting
cursor), the generator's stream is never reset, and the render leaves the
cursor advanced by exactly `h * w`. -/
theorem c9_draw_discipline {α : Type} [LinearOrderedField α] [FloorRing α]
    (sinF lnF : α → α) (m : Metrics) (rng : RngState α) (w h : ℕ)
    (style : String) :
    renderBase sinF lnF m rng w h style =
      ((List.range h).map (fun y => (List.range w).map
        (fun x => cellChar sinF style (cpuF m) (memF m) (netF lnF m) w h x y
          (rng.stream (rng.index + (y * w + x))))),
       ⟨rng.stream, rng.index + h * w⟩) ∧
    (render_frame sinF lnF m rng w h style).2 =
      ⟨rng.stream, rng.index + h * w⟩ := by
  refine ⟨renderBase_eq sinF lnF m rng w h style, ?_⟩
  rw [render_frame_as_stages]
  exact congrArg Prod.snd (renderBase_eq sinF lnF m rng w h style)

/-- C10: Overlay frame effect — the compositing stages leave every row
other than row 0 and the status row `height/2` identical to the
corresponding base-frame row, and the character-wise status write never
changes the length of the row it writes into. -/
theorem c10_overlay_frame_effect {α : Type} [LinearOrderedField α] [FloorRing α]
    (sinF lnF : α → α) (m : Metrics) (rng : RngState α) (w h : ℕ)
    (style : String) :
    (∀ i, i ≠ 0 → i ≠ h / 2 →
      (render_frame sinF lnF m rng w h style).1.getD i [] =
        (renderBase sinF lnF m rng w h style).1.getD i []) ∧
    (∀ (line text : List Char) (pos : ℕ),
      (writeAt line pos text).length = line.length) := by
  constructor
  · intro i h0 hy
    rw [render_frame_as_stages]
    rw [applySignature_getD_ne _ _ _ h0, applyStatus_getD_ne _ _ _ _ hy]
  · intro line text pos
    exact writeAt_length text line pos

/-- Witness for C10 at a concrete input: in a 3×4 render, row 1 (neither
row 0 nor the status row 4/2 = 2) of the final frame equals row 1 of the
base frame. -/
theorem c10_overlay_frame_effect_witness :
    (1:ℕ) ≠ 0 ∧ (1:ℕ) ≠ 4 / 2 ∧
    (render_frame Real.sin Real.log mexC10w ⟨fun _ => 0, 0⟩ 3 4 "plasma").1.getD 1 [] =
      (renderBase Real.sin Real.log mexC10w ⟨fun _ => 0, 0⟩ 3 4 "plasma").1.getD 1 [] :=
  ⟨by decide, by decide,
    (c10_overlay_frame_effect Real.sin Real.log mexC10w ⟨fun _ => 0, 0⟩ 3 4
      "plasma").1 1 (by decide) (by decide)⟩

/-- C2 (amended): Row shape — the final frame always has exactly `height`
rows; every row has exactly `width` characters, except that when
`entropy % 7 = 0` and the frame is non-empty, row 0 is replaced by the
signature string, whose length is that of the signature text rather than
`width`. -/
theorem c2_row_shape_amended {α : Type} [LinearOrderedField α] [FloorRing α]
    (sinF lnF : α → α) (m : Metrics) (rng : RngState α) (w h : ℕ)
    (style : String) :
    (render_frame sinF lnF m rng w h style).1.length = h ∧
    (∀ i, i < h → i ≠ 0 →
      ((render_frame sinF lnF m rng w h style).1.getD i []).length = w) ∧
    (m.entropy % 7 ≠ 0 → ∀ i, i < h →
      ((render_frame sinF lnF m rng w h style).1.getD i []).length = w) ∧
    (m.entropy % 7 = 0 → 0 < h →
      (render_frame sinF lnF m rng w h style).1.getD 0 [] =
        (sigText style m.entropy).toList) := by
  refine ⟨render_frame_fst_length sinF lnF m rng w h style, ?_, ?_, ?_⟩
  · intro i hi h0
    rw [render_frame_as_stages]
    rw [applySignature_getD_ne _ _ _ h0]
    exact applyStatus_row_length sinF lnF m rng w h style hi
  · intro h7 i hi
    rw [render_frame_as_stages]
    rw [applySignature_of_no_trigger _ h7]
    exact applyStatus_row_length sinF lnF m rng w h style hi
  · intro h7 hpos
    rw [render_frame_as_stages]
    have hlen : (applyStatus m (renderBase sinF lnF m rng w h style).1 w h).length
        = h := by
      rw [applyStatus_length]
      exact renderBase_fst_length sinF lnF m rng w h style
    rw [applySignature_of_trigger style h7
      (by intro hc; rw [hc] at hlen; simp at hlen; omega)]
    exact getD_set_self _ _ _ _ (by rw [hlen]; exact hpos)

/-- Counterexample to C2 as stated: with the all-zero snapshot
(`entropy = 0`, so `0 % 7 = 0`) and a 1×1 canvas, row 0 of the rendered
frame is the 42-character signature string, not a 1-character row. -/
theorem c2_row_shape_cex :
    ((render_frame Real.sin Real.log mexC2 ⟨fun _ => 0, 0⟩ 1 1 "plasma").1.getD 0
      []).length ≠ 1 := by
  rw [render_frame_as_stages]
  have hlen : (applyStatus mexC2
      (renderBase Real.sin Real.log mexC2 ⟨fun _ => 0, 0⟩ 1 1 "plasma").1 1 1).length
      = 1 := by
    rw [applyStatus_length]
    exact renderBase_fst_length Real.sin Real.log mexC2 ⟨fun _ => 0, 0⟩ 1 1 "plasma"
  rw [applySignature_of_trigger "plasma" (show mexC2.entropy % 7 = 0 from rfl)
    (by intro hc; rw [hc] at hlen; simp at hlen)]
  rw [getD_set_self _ _ _ _ (by rw [hlen]; omega)]
  decide

/-- Witness for the amended C2 at a concrete input: in a 3×2 render with
`entropy = 1`, row 1 has exactly 3 characters. -/
theorem c2_row_shape_amended_witness :
    (1:ℕ) < 2 ∧ (1:ℕ) ≠ 0 ∧
    ((render_frame Real.sin Real.log mexC2w ⟨fun _ => 0, 0⟩ 3 2 "waves").1.getD 1
      []).length = 3 :=
  ⟨by decide, by decide,
    (c2_row_shape_amended Real.sin Real.log mexC2w ⟨fun _ => 0, 0⟩ 3 2
      "waves").2.1 1 (by decide) (by decide)⟩

/-- C6: Signature trigger — when `entropy % 7 = 0` and the frame is
non-empty, row 0 of the final frame is exactly the signature string
`"Style: <style> | Frames seeded by entropy <entropy>"`; when
`entropy % 7 ≠ 0` the signature stage leaves the frame exactly as the
status stage produced it (row 0 unchanged by the signature rule). -/
theorem c6_signature_trigger {α : Type} [LinearOrderedField α] [FloorRing α]
    (sinF lnF : α → α) (m : Metrics) (rng : RngState α) (w h : ℕ)
    (style : String) :
    (m.entropy % 7 = 0 → 0 < h →
      (render_frame sinF lnF m rng w h style).1.getD 0 [] =
        (sigText style m.entropy).toList) ∧
    (m.entropy % 7 ≠ 0 →
      (render_frame sinF lnF m rng w h style).1 =
        applyStatus m (renderBase sinF lnF m rng w h style).1 w h) := by
  constructor
  · intro h7 hpos
    rw [render_frame_as_stages]
    have hlen : (applyStatus m (renderBase sinF lnF m rng w h style).1 w h).length
        = h := by
      rw [applyStatus_length]
      exact renderBase_fst_length sinF lnF m rng w h style
    rw [applySignature_of_trigger style h7
      (by intro hc; rw [hc] at hlen; simp at hlen; omega)]
    exact getD_set_self _ _ _ _ (by rw [hlen]; exact hpos)
  · intro h7
    rw [render_frame_as_stages]
    rw [applySignature_of_no_trigger _ h7]

/-- Witness for C6 at a concrete input: with `entropy = 14`
(`14 % 7 = 0`) on a 1×1 canvas in style `waves`, row 0 of the final frame
is exactly the signature string. -/
theorem c6_signature_trigger_witness :
    mexC6w.entropy % 7 = 0 ∧ (0:ℕ) < 1 ∧
    (render_frame Real.sin Real.log mexC6w ⟨fun _ => 0, 0⟩ 1 1 "waves").1.getD 0 [] =
      "Style: waves | Frames seeded by entropy 14".toList := by
  refine ⟨by decide, by decide, ?_⟩
  have h := (c6_signature_trigger Real.sin Real.log mexC6w ⟨fun _ => 0, 0⟩ 1 1
    "waves").1 (by decide) (by decide)
  rw [h]
  rfl

/-- C4 (amended): Entropy derivation — the derived entropy equals
`trunc(cpu_usage_percent * 100) + used_memory + network_rx + network_tx +
sum of disk total_space`: the source casts with `as u64`, which truncates
toward zero, not `round` as the spec claims.  (Stated below the `u64`
saturation bound of the cast.) -/
theorem c4_entropy_amended (cpu_usage : ℚ)
    (used_memory network_rx network_tx : ℕ) (disk_usage : List DiskMetrics)
    (h0 : 0 ≤ cpu_usage) (hsat : (⌊cpu_usage * 100⌋).toNat ≤ F.u64MaxN) :
    deriveEntropy cpu_usage used_memory network_rx network_tx disk_usage =
      (⌊cpu_usage * 100⌋).toNat + used_memory + network_rx + network_tx
        + (disk_usage.map (·.total_space)).sum := by
  rw [deriveEntropy, F.fmul_fin_fin]
  simp only [F.ftoU64]
  by_cases hle : cpu_usage * 100 ≤ 0
  · rw [if_pos hle]
    have hz : cpu_usage * 100 = 0 :=
      le_antisymm hle (mul_nonneg h0 (by norm_num))
    rw [hz]
    norm_num
  · rw [if_neg hle, min_eq_left hsat]

/-- Counterexample to C4 as stated: at `cpu_usage_percent = 0.375` (an
exactly representable f32, whose product with 100 is exactly 37.5) the
source's truncating cast yields 37 while the spec's `round` yields 38. -/
theorem c4_entropy_cex :
    deriveEntropy (3/8) 0 0 0 [] ≠ entropySpecRound (3/8) 0 0 0 [] := by
  have hcode : deriveEntropy (3/8) 0 0 0 [] = 37 := by
    rw [deriveEntropy, F.fmul_fin_fin, show (3/8 : ℚ) * 100 = 75/2 by norm_num]
    simp only [F.ftoU64]
    rw [if_neg (by norm_num), show (⌊(75/2 : ℚ)⌋) = 37 by norm_num [Int.floor_eq_iff]]
    rw [min_eq_left (by norm_num [F.u64MaxN])]
    rfl
  have hspec : entropySpecRound (3/8) 0 0 0 [] = 38 := by
    rw [entropySpecRound,
      show round ((3/8 : ℚ) * 100) = 38 by norm_num [round_eq]]
    rfl
  rw [hcode, hspec]
  decide

/-- Witness for the amended C4 at the spec's own test vector:
`cpu_usage_percent = 50.0, used_memory = 1000, network_rx = 200,
network_tx = 300`, disk total_space sum 500 gives entropy
`5000 + 1000 + 200 + 300 + 500 = 7000`. -/
theorem c4_entropy_amended_witness :
    (0:ℚ) ≤ 50 ∧ (⌊(50:ℚ) * 100⌋).toNat ≤ F.u64MaxN ∧
    deriveEntropy 50 1000 200 300 [⟨"disk", 500, 0⟩] = 7000 := by
  have h0 : (0:ℚ) ≤ 50 := by norm_num
  have hfl : (⌊(50:ℚ) * 100⌋) = 5000 := by norm_num
  have hsat : (⌊(50:ℚ) * 100⌋).toNat ≤ F.u64MaxN := by
    rw [hfl]
    norm_num [F.u64MaxN]
  refine ⟨h0, hsat, ?_⟩
  rw [c4_entropy_amended 50 1000 200 300 [⟨"disk", 500, 0⟩] h0 hsat, hfl]
  rfl

/-- The clamp-then-divide of the source and the divide-then-clamp of the
spec's wording agree for every f32 value (15 is positive, NaN and the
infinities behave the same on both routes). -/
theorem fdiv_fmax_comm {α : Type} [LinearOrderedField α] (v : F α) :
    F.fdiv (F.fmax v (F.fin 0)) (F.fin 15) =
      F.fmax (F.fdiv v (F.fin 15)) (F.fin 0) := by
  cases v with
  | nan =>
      show F.fdiv (F.fin 0) (F.fin 15) = F.fmax F.nan (F.fin 0)
      rw [F.fdiv_fin_fin_of_ne (by norm_num)]
      norm_num
      rfl
  | pinf =>
      show F.fdiv F.pinf (F.fin 15) = F.fmax (F.fdiv F.pinf (F.fin 15)) (F.fin 0)
      simp only [F.fdiv]
      rw [if_pos (by norm_num : (0:α) ≤ 15)]
      rfl
  | ninf =>
      show F.fdiv (F.fin 0) (F.fin 15) = F.fmax (F.fdiv F.ninf (F.fin 15)) (F.fin 0)
      rw [F.fdiv_fin_fin_of_ne (by norm_num)]
      simp only [F.fdiv]
      rw [if_pos (by norm_num : (0:α) ≤ 15)]
      show F.fin (0 / 15) = F.fin 0
      norm_num
  | fin a =>
      rw [F.fmax_fin_fin, F.fdiv_fin_fin_of_ne (by norm_num),
        F.fdiv_fin_fin_of_ne (by norm_num), F.fmax_fin_fin]
      rw [← max_div_div_right (by norm_num : (0:α) ≤ 15)]
      norm_num

/-- C7 (amended): Network signal formula — the renderer's per-cell
network signal is `max(ln(network_rx + network_tx), 0) / 15`, i.e. the
spec's formula without the `+ 1` inside the logarithm (with `ln 0 = -∞`
clamping to 0), and the swirl combines it exactly as
`sin((x/width)*cpu_ratio + (y/height)*memory_ratio +
noise*network_signal)`. -/
theorem c7_network_signal_amended {α : Type} [LinearOrderedField α]
    [FloorRing α] (sinF lnF : α → α) (m : Metrics) :
    netF lnF m = networkSignalAmended lnF m.network_rx m.network_tx ∧
    (∀ (cpu mem : F α) (w h x y : ℕ) (noise : α),
      swirlF sinF cpu mem (netF lnF m) w h x y noise =
        swirlSpec sinF cpu mem
          (networkSignalAmended lnF m.network_rx m.network_tx) w h x y noise) := by
  have h1 : netF lnF m = networkSignalAmended lnF m.network_rx m.network_tx := by
    rw [netF, networkSignal, networkSignalAmended, fdiv_fmax_comm]
  exact ⟨h1, fun cpu mem w h x y noise => by rw [h1]; rfl⟩

/-- Counterexample to C7 as stated: with `network_rx = 1, network_tx = 0`
the source computes `max(ln 1, 0) / 15 = 0`, while the spec's
`ln(1 + 1)/15 = ln 2 / 15 > 0`. -/
theorem c7_network_signal_cex :
    netF Real.log mexC7 ≠
      networkSignalSpec Real.log mexC7.network_rx mexC7.network_tx := by
  have hcode : netF Real.log mexC7 = F.fin 0 := by
    rw [netF, networkSignal,
      show ((mexC7.network_rx + mexC7.network_tx : ℕ) : ℝ) = 1 by norm_num [mexC7],
      F.fln_fin_of_pos _ (by norm_num), Real.log_one, F.fmax_fin_fin,
      F.fdiv_fin_fin_of_ne (by norm_num)]
    norm_num
  have hspec : networkSignalSpec Real.log mexC7.network_rx mexC7.network_tx =
      F.fin (Real.log 2 / 15) := by
    rw [networkSignalSpec,
      show ((mexC7.network_rx + mexC7.network_tx + 1 : ℕ) : ℝ) = 2 by
        norm_num [mexC7],
      F.fln_fin_of_pos _ (by norm_num), F.fdiv_fin_fin_of_ne (by norm_num),
      F.fmax_fin_fin, max_eq_left (by positivity)]
  rw [hcode, hspec]
  intro hcon
  have hz : (0:ℝ) = Real.log 2 / 15 := by
    injection hcon
  have hp : (0:ℝ) < Real.log 2 / 15 := by positivity
  exact hp.ne' hz.symm

/-- C3 (amended): Zero-memory behaviour — with `total_memory = 0` the
renderer still completes and produces a full `height`-row frame (no
fault), but the memory ratio is **not** substituted with zero: it is NaN
(`0/0`) or `+∞` (`used/0`), it poisons every swirl and intensity, and
every base-frame glyph collapses to `art_char style NaN`, the first ramp
character. -/
theorem c3_zero_memory_amended {α : Type} [LinearOrderedField α] [FloorRing α]
    (sinF lnF : α → α) (m : Metrics) (rng : RngState α) (w h : ℕ)
    (style : String) (hz : m.total_memory = 0) :
    (render_frame sinF lnF m rng w h style).1.length = h ∧
    (renderBase sinF lnF m rng w h style).1 =
      List.replicate h (List.replicate w (art_char style (F.nan : F α))) :=
  ⟨render_frame_fst_length sinF lnF m rng w h style,
    renderBase_total_zero sinF lnF m rng w h style hz⟩

/-- Witness for the amended C3 at a concrete input: a 2×2 render of the
zero-memory snapshot completes with 2 rows, all of whose glyphs are the
NaN glyph. -/
theorem c3_zero_memory_amended_witness :
    mexC3w.total_memory = 0 ∧
    (render_frame Real.sin Real.log mexC3w ⟨fun _ => 0, 0⟩ 2 2 "plasma").1.length
      = 2 ∧
    (renderBase Real.sin Real.log mexC3w ⟨fun _ => 0, 0⟩ 2 2 "plasma").1 =
      List.replicate 2 (List.replicate 2 (art_char "plasma" (F.nan : F ℝ))) :=
  ⟨rfl,
    (c3_zero_memory_amended Real.sin Real.log mexC3w ⟨fun _ => 0, 0⟩ 2 2
      "plasma" rfl).1,
    (c3_zero_memory_amended Real.sin Real.log mexC3w ⟨fun _ => 0, 0⟩ 2 2
      "plasma" rfl).2⟩

/-- Counterexample to C3 as stated: with `total_memory = 0`,
`used_memory = 0`, `cpu_usage = 99` on a 1×1 canvas, the source renders
the blank glyph `' '` (NaN ratio poisons the cell), while the
spec-mandated zero-substituted ratio would render `'@'` — the ratio does
not "behave as 0". -/
theorem c3_zero_memory_cex :
    (renderBase Real.sin Real.log mexC3 ⟨fun _ => 0, 0⟩ 1 1 "plasma").1 ≠
      (renderBaseGuarded Real.sin Real.log mexC3 ⟨fun _ => 0, 0⟩ 1 1 "plasma").1 := by
  have hcode : (renderBase Real.sin Real.log mexC3 ⟨fun _ => 0, 0⟩ 1 1
      "plasma").1 = [[' ']] := by
    rw [renderBase_total_zero Real.sin Real.log mexC3 ⟨fun _ => 0, 0⟩ 1 1
      "plasma" rfl, art_char_nan]
    rfl
  have hcpu : cpuF (α := ℝ) mexC3 = F.fin (99/100) := by
    rw [cpuF_eq]
    norm_num [mexC3]
  have hmem : memFGuarded (α := ℝ) mexC3 = F.fin 0 := by
    simp [memFGuarded, mexC3]
  have hnet : netF Real.log mexC3 = F.fin 0 := by
    rw [netF, networkSignal,
      show ((mexC3.network_rx + mexC3.network_tx : ℕ) : ℝ) = 0 by
        norm_num [mexC3]]
    rw [F.fln_fin_zero, F.fmax_ninf_fin, F.fdiv_fin_fin_of_ne (by norm_num)]
    norm_num
  have hswirl : swirlF Real.sin (F.fin (99/100 : ℝ)) (F.fin 0) (F.fin 0) 1 1 0 0 0
      = F.fin 0 := by
    rw [swirlF, F.fmul_fin_fin, F.fmul_fin_fin, F.fmul_fin_fin, F.fadd_fin_fin,
      F.fadd_fin_fin, F.fsin_fin]
    norm_num [Real.sin_zero]
  have hint : intensityF (F.fin (99/100 : ℝ)) (F.fin 0) (F.fin 0)
      = F.fin (99/100) := by
    rw [intensityF, F.fadd_fin_fin, F.fdiv_fin_fin_of_ne (by norm_num : (2:ℝ) ≠ 0),
      F.fmul_fin_fin, F.fadd_fin_fin, F.ffract_fin, F.truncVal,
      if_pos (by norm_num : (0:ℝ) ≤ (0 + 1) / 2 * 0 + 99/100)]
    rw [show (⌊((0 + 1) / 2 * 0 + 99/100 : ℝ)⌋) = 0 by norm_num [Int.floor_eq_iff]]
    norm_num
  have hart : art_char "plasma" (F.fin (99/100 : ℝ)) = '@' := by
    rw [art_char, artIdx, F.fclamp01_fin,
      show max (0:ℝ) (min (99/100) 1) = 99/100 by norm_num,
      F.fmul_fin_fin]
    rw [show ((rampStr "plasma").toList.length : ℕ) = 8 from rfl]
    rw [show ((99:ℝ)/100 * ((8:ℕ) - 1)) = 693/100 by norm_num]
    rw [F.froundToNat_fin (by norm_num)
      (by rw [show (⌊(693/100 + 1/2 : ℝ)⌋) = 7 by norm_num [Int.floor_eq_iff]]
          norm_num [F.u64MaxN])]
    rw [show (⌊(693/100 + 1/2 : ℝ)⌋) = 7 by norm_num [Int.floor_eq_iff]]
    rfl
  have hg : (renderBaseGuarded Real.sin Real.log mexC3 ⟨fun _ => 0, 0⟩ 1 1
      "plasma").1 = [['@']] := by
    rw [renderBaseGuarded_eq]
    simp only [List.range_succ, List.range_zero, List.nil_append, List.map_cons,
      List.map_nil]
    rw [hcpu, hmem, hnet]
    rw [show cellChar Real.sin "plasma" (F.fin (99/100 : ℝ)) (F.fin 0) (F.fin 0)
        1 1 0 0 0 = '@' by rw [cellChar, hswirl, hint, hart]]
  rw [hcode, hg]
  decide

/-- C5 (amended): Overlay centering — for a non-empty frame the status
line is written into the row at index `height/2`; when the text is
shorter than the width it starts at offset `(width - len)/2` and
overwrites exactly `len(text)` characters (positions before the offset
and at/after `offset + len` are untouched); when the text does **not**
fit it is *not* skipped: it is written from offset 0, truncated at the
row's length.  If `height = 0` the frame is empty and no write occurs. -/
theorem c5_overlay_centering_amended {α : Type} [LinearOrderedField α]
    [FloorRing α] (sinF lnF : α → α) (m : Metrics) (rng : RngState α)
    (w h : ℕ) (style : String) :
    (0 < h → applyStatus m (renderBase sinF lnF m rng w h style).1 w h =
      (renderBase sinF lnF m rng w h style).1.set (h / 2)
        (writeAt ((renderBase sinF lnF m rng w h style).1.getD (h / 2) [])
          (if (statusText m).toList.length < w
            then (w - (statusText m).toList.length) / 2 else 0)
          (statusText m).toList)) ∧
    (h = 0 → applyStatus m (renderBase sinF lnF m rng w h style).1 w h =
      (renderBase sinF lnF m rng w h style).1) ∧
    (∀ (line text : List Char) (pos j : ℕ), pos ≤ j → j < line.length →
      j < pos + text.length →
      (writeAt line pos text).getD j ' ' = text.getD (j - pos) ' ') ∧
    (∀ (line text : List Char) (pos j : ℕ), j < pos ∨ pos + text.length ≤ j →
      (writeAt line pos text).getD j ' ' = line.getD j ' ') := by
  refine ⟨?_, ?_, ?_, ?_⟩
  · intro hpos
    exact applyStatus_eq m _ w h
      (renderBase_fst_length sinF lnF m rng w h style) hpos
  · intro h0
    have hb : (renderBase sinF lnF m rng w h style).1 = [] := by
      refine List.length_eq_zero.mp ?_
      rw [renderBase_fst_length, h0]
    rw [hb, applyStatus, if_pos rfl]
  · intro line text pos j h1 h2 h3
    exact writeAt_getD_mid text line pos j ' ' h1 h2 h3
  · intro line text pos j hor
    rcases hor with hlt | hge
    · exact writeAt_getD_of_lt_pos text line pos j ' ' hlt
    · exact writeAt_getD_of_ge text line pos j ' ' hge

/-- Witness for the amended C5 at a concrete input: a 50×1 render
composites the status line into row `1/2 = 0` at the computed offset. -/
theorem c5_overlay_centering_amended_witness :
    (0:ℕ) < 1 ∧
    applyStatus mexC5w
      (renderBase Real.sin Real.log mexC5w ⟨fun _ => 0, 0⟩ 50 1 "plasma").1 50 1 =
      (renderBase Real.sin Real.log mexC5w ⟨fun _ => 0, 0⟩ 50 1 "plasma").1.set
        (1 / 2)
        (writeAt ((renderBase Real.sin Real.log mexC5w ⟨fun _ => 0, 0⟩ 50 1
            "plasma").1.getD (1 / 2) [])
          (if (statusText mexC5w).toList.length < 50
            then (50 - (statusText mexC5w).toList.length) / 2 else 0)
          (statusText mexC5w).toList) :=
  ⟨by decide,
    (c5_overlay_centering_amended Real.sin Real.log mexC5w ⟨fun _ => 0, 0⟩ 50 1
      "plasma").1 (by decide)⟩

/-- Counterexample to C5 as stated: on a 2×2 canvas the 40-character
status text exceeds the width, yet the source does **not** skip the
write — it overwrites row 1 from offset 0 (the row becomes `"CP"`),
so the frame is mutated. -/
theorem c5_overlay_skip_cex :
    (render_frame Real.sin Real.log mexC5 ⟨fun _ => 0, 0⟩ 2 2 "plasma").1.getD 1 []
      ≠ (renderBase Real.sin Real.log mexC5 ⟨fun _ => 0, 0⟩ 2 2 "plasma").1.getD 1
        [] := by
  have hlen : (renderBase Real.sin Real.log mexC5 ⟨fun _ => 0, 0⟩ 2 2
      "plasma").1.length = 2 :=
    renderBase_fst_length Real.sin Real.log mexC5 ⟨fun _ => 0, 0⟩ 2 2 "plasma"
  have hrowlen : ((renderBase Real.sin Real.log mexC5 ⟨fun _ => 0, 0⟩ 2 2
      "plasma").1.getD 1 []).length = 2 :=
    renderBase_row_length Real.sin Real.log mexC5 ⟨fun _ => 0, 0⟩ 2 2 "plasma"
      (by norm_num)
  have hrender : (render_frame Real.sin Real.log mexC5 ⟨fun _ => 0, 0⟩ 2 2
        "plasma").1.getD 1 [] =
      writeAt ((renderBase Real.sin Real.log mexC5 ⟨fun _ => 0, 0⟩ 2 2
        "plasma").1.getD 1 []) 0 (statusText mexC5).toList := by
    rw [render_frame_as_stages]
    rw [applySignature_of_no_trigger _ (show mexC5.entropy % 7 ≠ 0 by decide)]
    rw [applyStatus_eq mexC5 _ 2 2 hlen (by norm_num)]
    rw [if_neg (by rw [statusText_mexC5_length]; norm_num)]
    exact getD_set_self _ _ _ _ (by rw [hlen]; norm_num)
  intro hcon
  have h1 : ((render_frame Real.sin Real.log mexC5 ⟨fun _ => 0, 0⟩ 2 2
      "plasma").1.getD 1 []).getD 0 ' ' = 'C' := by
    rw [hrender]
    rw [writeAt_getD_mid _ _ 0 0 ' ' (le_refl 0) (by rw [hrowlen]; norm_num)
      (by rw [statusText_mexC5_length]; norm_num)]
    rw [statusText_mexC5]
    rfl
  have h2 : ((renderBase Real.sin Real.log mexC5 ⟨fun _ => 0, 0⟩ 2 2
      "plasma").1.getD 1 []).getD 0 ' ' ∈ (rampStr "plasma").toList := by
    rw [renderBase_eq]
    dsimp only
    rw [getD_map_range _ (by norm_num : (1:ℕ) < 2)]
    rw [getD_map_range _ (by norm_num : (0:ℕ) < 2)]
    exact art_char_mem_ramp _ _
  rw [hcon] at h1
  rw [h1] at h2
  exact absurd h2 (by decide)
